import Mathlib

/-!
Shallow embedding of the realtime-sync core of the portfolio-monitor
repository: the `WebSocketManager` cache/broadcast hub (src/api/websocket.py),
the OKX websocket client reconnect loop (src/okx/ws_client.py), and the
snapshot persistence operations (src/db/models.py, src/db/database.py,
src/scheduler/snapshot_task.py).

Python floats are modelled by rationals (all numeric operations appearing in
the embedded code are parsing, comparison, and copying, on which rationals
agree with IEEE doubles for the decimal literals used in the claims).
Raw JSON numeric fields arrive as strings from the upstream venue; a raw
field is modelled by the four cases the code distinguishes: absent key,
empty string, a nonempty string that parses to the rational `q`, and a
nonempty string that does not parse.  Wall-clock timestamps attached to
broadcast messages are irrelevant to every claim and are omitted from the
message model; order timestamps (`cTime`/`uTime`) are kept as integer
milliseconds (the ISO formatting applied by the code is injective).
-/

/-- Raw value of one JSON field as the Python code sees it after `dict.get`:
`missing` is an absent key (`None`), `empty` the empty string, `num q` a
nonempty numeric string with value `q`, `bad` a nonempty non-numeric string. -/
inductive RawVal where
  | missing : RawVal
  | empty : RawVal
  | num : ℚ → RawVal
  | bad : RawVal
deriving DecidableEq, Repr

/-- Python `float(x)` on a raw value: raises (`Except.error`) on `None`,
on the empty string and on a non-numeric string. -/
def pyFloat : RawVal → Except Unit ℚ
  | RawVal.missing => Except.error ()
  | RawVal.empty => Except.error ()
  | RawVal.num q => Except.ok q
  | RawVal.bad => Except.error ()

/-- `safe_float` from `WebSocketManager._on_balance_update`
(src/api/websocket.py lines 93-99): `None` and the empty string return the
default, a failing `float()` is caught and returns the default. -/
def safe_float (v : RawVal) (default : ℚ) : ℚ :=
  if v = RawVal.missing ∨ v = RawVal.empty then default
  else
    match pyFloat v with
    | Except.ok q => q
    | Except.error _ => default

/-- `float(item.get(k, 0))`: a missing key defaults to `0`, otherwise the
bare `float()` builtin runs (and raises on empty or non-numeric strings). -/
def floatGetD0 : RawVal → Except Unit ℚ
  | RawVal.missing => Except.ok 0
  | v => pyFloat v

/-- `float(item.get(k, 0) or 0)`: missing and falsy (empty) values default
to `0`; a nonempty non-numeric string still raises. -/
def floatGetOr0 : RawVal → Except Unit ℚ
  | RawVal.missing => Except.ok 0
  | RawVal.empty => Except.ok 0
  | v => pyFloat v

/-- Python `int(x)` on a raw string value: succeeds only on integral
numeric strings. -/
def pyInt : RawVal → Except Unit ℤ
  | RawVal.num q => if q.den = 1 then Except.ok q.num else Except.error ()
  | _ => Except.error ()

/-- `int(item.get(k, 1) or 1)` (the `lever` field). -/
def intGetOr1 : RawVal → Except Unit ℤ
  | RawVal.missing => Except.ok 1
  | RawVal.empty => Except.ok 1
  | v => pyInt v

/-- `float(item.get(k, 0)) if item.get(k) else None` (the `px` / `avgPx`
fields of an order): falsy values give `None`, otherwise `float()` runs. -/
def optFloat : RawVal → Except Unit (Option ℚ)
  | RawVal.missing => Except.ok none
  | RawVal.empty => Except.ok none
  | RawVal.num q => Except.ok (some q)
  | RawVal.bad => Except.error ()

/-- `cTime`/`uTime` handling in `_on_orders_update`: when the field is
truthy, `int(...)` runs and the millisecond value is formatted; falsy
fields leave `None`. The stored value is modelled by the milliseconds. -/
def optTimestamp : RawVal → Except Unit (Option ℤ)
  | RawVal.missing => Except.ok none
  | RawVal.empty => Except.ok none
  | RawVal.num q => if q.den = 1 then Except.ok (some q.num) else Except.error ()
  | RawVal.bad => Except.error ()

/-- One entry of the `details` list of an `account`-channel event. -/
structure BalDetail where
  ccy : Option String
  cashBal : RawVal
  availBal : RawVal
  frozenBal : RawVal
  eq : RawVal
  eqUsd : RawVal
deriving DecidableEq, Repr

/-- The first element of the `data` list of an `account`-channel event. -/
structure AccountData where
  totalEq : RawVal
  upl : RawVal
  imr : RawVal
  details : List BalDetail
deriving DecidableEq, Repr

/-- One parsed currency asset as cached by `_on_balance_update`. -/
structure Asset where
  ccy : String
  bal : ℚ
  avail_bal : ℚ
  frozen_bal : ℚ
  eq : ℚ
  eq_usd : ℚ
deriving DecidableEq, Repr

/-- The cached balance dictionary built by `_on_balance_update`. -/
structure BalanceInfo where
  total_equity : ℚ
  available : ℚ
  frozen : ℚ
  unrealized_pnl : ℚ
  margin_used : ℚ
  assets : List Asset
deriving DecidableEq, Repr

/-- The asset dictionary appended for one qualifying detail row. -/
def parseAsset (d : BalDetail) : Asset :=
  { ccy := d.ccy.getD ""
    bal := safe_float d.cashBal 0
    avail_bal := safe_float d.availBal 0
    frozen_bal := safe_float d.frozenBal 0
    eq := safe_float d.eq 0
    eq_usd := safe_float d.eqUsd 0 }

/-- The filter `if bal > 0 or eq > 0` of `_on_balance_update`. -/
def keepDetail (d : BalDetail) : Bool :=
  decide (0 < safe_float d.cashBal 0) || decide (0 < safe_float d.eq 0)

/-- Stable insertion of an asset into a list sorted by `eq` descending:
the element is placed after every element of strictly greater equity and
before any element of equal or smaller equity.  Since `sortByEqDesc`
inserts each element into the sorted suffix of the elements after it,
an element precedes every tied later element, reproducing the output of
Python `list.sort(key=..., reverse=True)` (a stable sort). -/
def insertByEqDesc (x : Asset) : List Asset → List Asset
  | [] => [x]
  | y :: ys => if x.eq < y.eq then y :: insertByEqDesc x ys else x :: y :: ys

/-- `assets.sort(key=lambda x: x["eq"], reverse=True)`: stable sort by
equity descending. -/
def sortByEqDesc : List Asset → List Asset
  | [] => []
  | x :: xs => insertByEqDesc x (sortByEqDesc xs)

/-- The `balance_info` dictionary built by `_on_balance_update`
(src/api/websocket.py lines 101-135) from the first element of `data`. -/
def buildBalanceInfo (ad : AccountData) : BalanceInfo :=
  let usdt_detail := ad.details.find? (fun d => decide (d.ccy = some "USDT"))
  let available :=
    match usdt_detail with
    | some d => safe_float d.availBal 0
    | none => 0
  let frozen :=
    match usdt_detail with
    | some d => safe_float d.frozenBal 0
    | none => 0
  let assets := (ad.details.filter keepDetail).map parseAsset
  { total_equity := safe_float ad.totalEq 0
    available := available
    frozen := frozen
    unrealized_pnl := safe_float ad.upl 0
    margin_used := safe_float ad.imr 0
    assets := sortByEqDesc assets }

/-- One item of a `positions`-channel event. -/
structure PosItem where
  instId : Option String
  posSide : Option String
  pos : RawVal
  avgPx : RawVal
  markPx : RawVal
  upl : RawVal
  uplRatio : RawVal
  margin : RawVal
  lever : RawVal
deriving DecidableEq, Repr

/-- One cached position dictionary built by `_on_positions_update`. -/
structure Position where
  inst_id : String
  pos_side : String
  pos : ℚ
  avg_px : ℚ
  mark_px : ℚ
  upl : ℚ
  upl_ratio : ℚ
  margin : ℚ
  lever : ℤ
deriving DecidableEq, Repr

/-- Conversion of one positions item (src/api/websocket.py lines 149-164):
`float(item.get("pos", 0))`, skip when zero, otherwise parse the remaining
fields with the `or 0` pattern; any parse failure raises. -/
def convertPosItem (it : PosItem) : Except Unit (Option Position) :=
  match floatGetD0 it.pos with
  | Except.error e => Except.error e
  | Except.ok pos =>
    if pos = 0 then Except.ok none
    else
      match floatGetOr0 it.avgPx, floatGetOr0 it.markPx, floatGetOr0 it.upl,
          floatGetOr0 it.uplRatio, floatGetOr0 it.margin, intGetOr1 it.lever with
      | Except.ok avg_px, Except.ok mark_px, Except.ok upl, Except.ok upl_ratio,
          Except.ok margin, Except.ok lever =>
        Except.ok (some {
          inst_id := it.instId.getD ""
          pos_side := it.posSide.getD "net"
          pos := pos
          avg_px := avg_px
          mark_px := mark_px
          upl := upl
          upl_ratio := upl_ratio
          margin := margin
          lever := lever })
      | _, _, _, _, _, _ => Except.error ()

/-- The `positions` list built by the loop of `_on_positions_update`;
an exception in any iteration aborts the whole update. -/
def applyPositionsList : List PosItem → Except Unit (List Position)
  | [] => Except.ok []
  | it :: rest =>
    match convertPosItem it with
    | Except.error e => Except.error e
    | Except.ok none => applyPositionsList rest
    | Except.ok (some p) =>
      match applyPositionsList rest with
      | Except.error e => Except.error e
      | Except.ok ps => Except.ok (p :: ps)

/-- One item of an `orders`-channel event. -/
structure OrderItem where
  ordId : Option String
  state : Option String
  instId : Option String
  side : Option String
  posSide : Option String
  ordType : Option String
  sz : RawVal
  px : RawVal
  fillSz : RawVal
  avgPx : RawVal
  lever : RawVal
  cTime : RawVal
  uTime : RawVal
deriving DecidableEq, Repr

/-- One cached pending-order dictionary built by `_on_orders_update`. -/
structure PendingOrder where
  order_id : String
  inst_id : String
  side : String
  pos_side : String
  order_type : String
  sz : ℚ
  px : Option ℚ
  fill_sz : ℚ
  avg_px : Option ℚ
  state : String
  lever : ℤ
  created_at : Option ℤ
  updated_at : Option ℤ
deriving DecidableEq, Repr

/-- `state in ("live", "partially_filled")`. -/
def isPendingState (s : String) : Bool :=
  decide (s = "live") || decide (s = "partially_filled")

/-- Conversion of one live/partially-filled order item into the stored
dictionary (src/api/websocket.py lines 186-212); any numeric parse
failure raises. -/
def convertOrderItem (it : OrderItem) : Except Unit PendingOrder :=
  match optTimestamp it.cTime, optTimestamp it.uTime, floatGetD0 it.sz, optFloat it.px,
      floatGetOr0 it.fillSz, optFloat it.avgPx, intGetOr1 it.lever with
  | Except.ok created_at, Except.ok updated_at, Except.ok sz, Except.ok px,
      Except.ok fill_sz, Except.ok avg_px, Except.ok lever =>
    Except.ok {
      order_id := it.ordId.getD ""
      inst_id := it.instId.getD ""
      side := it.side.getD ""
      pos_side := it.posSide.getD "net"
      order_type := it.ordType.getD ""
      sz := sz
      px := px
      fill_sz := fill_sz
      avg_px := avg_px
      state := it.state.getD ""
      lever := lever
      created_at := created_at
      updated_at := updated_at }
  | _, _, _, _, _, _, _ => Except.error ()

/-- Python-dict upsert on an insertion-ordered association list: an
existing key keeps its position, a new key is appended. -/
def dictSet {α : Type} (m : List (String × α)) (k : String) (v : α) : List (String × α) :=
  if m.any (fun p => decide (p.1 = k)) then
    m.map (fun p => if p.1 = k then (k, v) else p)
  else m ++ [(k, v)]

/-- Python-dict lookup on an insertion-ordered association list. -/
def dictLookup {α : Type} (m : List (String × α)) (k : String) : Option α :=
  (m.find? (fun p => decide (p.1 = k))).map (fun p => p.2)

/-- `dict.pop(order_id, None)`: remove the key (dict keys are unique, so
removing every pair with that key is the same operation). -/
def removeOrder (tbl : List (String × PendingOrder)) (k : String) : List (String × PendingOrder) :=
  tbl.filter (fun p => !decide (p.1 = k))

/-- The loop of `_on_orders_update` (src/api/websocket.py lines 180-215)
over the per-account pending-order dict: pending states are upserted,
every other state is popped.  The second component records a raised
exception; the dict mutations made before the raise persist (the Python
code mutates the dict in place). -/
def applyOrdersList (tbl : List (String × PendingOrder)) :
    List OrderItem → List (String × PendingOrder) × Option Unit
  | [] => (tbl, none)
  | it :: rest =>
    let order_id := it.ordId.getD ""
    let state := it.state.getD ""
    if isPendingState state then
      match convertOrderItem it with
      | Except.error _ => (tbl, some ())
      | Except.ok v => applyOrdersList (dictSet tbl order_id v) rest
    else applyOrdersList (removeOrder tbl order_id) rest

/-- A message broadcast or replayed to frontend observers.  The wall-clock
`timestamp` field attached by the code is omitted (it carries no claim
content); everything else is kept. -/
inductive Msg where
  | balance : String → BalanceInfo → Msg
  | positions : String → List Position → Msg
  | pendingOrders : String → List PendingOrder → Msg
  | error : String → String → Msg
deriving DecidableEq, Repr

/-- State of the `WebSocketManager` hub: frontend clients (by id, in
connection order) and the three per-account caches, each an
insertion-ordered dict. -/
structure HubState where
  clients : List ℕ
  balances : List (String × BalanceInfo)
  positions : List (String × List Position)
  pendingOrders : List (String × List (String × PendingOrder))
deriving DecidableEq, Repr

/-- `WebSocketManager.disconnect`: remove the client if present
(`list.remove` removes the first occurrence). -/
def WebSocketManager.disconnect (l : List ℕ) (c : ℕ) : List ℕ :=
  if c ∈ l then l.erase c else l

/-- `WebSocketManager.broadcast` (src/api/websocket.py lines 73-85):
try to send to every client in order, collect the clients whose send
raised, then disconnect each of them.  `alive c = true` means the send
to client `c` succeeds.  Returns the new hub state and the list of
deliveries `(client, message)` actually made. -/
def WebSocketManager.broadcast (alive : ℕ → Bool) (st : HubState) (m : Msg) :
    HubState × List (ℕ × Msg) :=
  let dead_clients := st.clients.filter (fun c => !alive c)
  let deliveries := (st.clients.filter (fun c => alive c)).map (fun c => (c, m))
  ({ st with clients := dead_clients.foldl WebSocketManager.disconnect st.clients }, deliveries)

/-- The replay performed by `WebSocketManager._send_cached_data`
(src/api/websocket.py lines 47-71): one balance message per cached
account, then one positions message per account, then one pending-orders
message per account (dict values in insertion order). -/
def replayMessages (st : HubState) : List Msg :=
  st.balances.map (fun p => Msg.balance p.1 p.2)
    ++ st.positions.map (fun p => Msg.positions p.1 p.2)
    ++ st.pendingOrders.map (fun p => Msg.pendingOrders p.1 (p.2.map (fun q => q.2)))

/-- `WebSocketManager.connect` (src/api/websocket.py lines 34-40): accept,
append the new client to the active list, then send it the cached data.
Returns the new state and the trace of sends `(recipient, message)`. -/
def WebSocketManager.connect (st : HubState) (w : ℕ) : HubState × List (ℕ × Msg) :=
  ({ st with clients := st.clients ++ [w] }, (replayMessages st).map (fun m => (w, m)))

/-- `WebSocketManager._on_balance_update` (src/api/websocket.py lines
87-144): empty `data` returns immediately; otherwise the balance dict is
built from `data[0]`, cached wholesale, and broadcast. -/
def WebSocketManager.onBalanceUpdate (alive : ℕ → Bool) (st : HubState)
    (account_id : String) (data : List AccountData) : HubState × List (ℕ × Msg) :=
  match data with
  | [] => (st, [])
  | account_data :: _ =>
    let balance_info := buildBalanceInfo account_data
    let st2 := { st with balances := dictSet st.balances account_id balance_info }
    WebSocketManager.broadcast alive st2 (Msg.balance account_id balance_info)

/-- `WebSocketManager._on_positions_update` (src/api/websocket.py lines
146-173): build the replacement position list; a parse exception aborts
before the cache assignment (the message handler catches it); otherwise
the cache entry is replaced wholesale and broadcast. -/
def WebSocketManager.onPositionsUpdate (alive : ℕ → Bool) (st : HubState)
    (account_id : String) (data : List PosItem) : HubState × List (ℕ × Msg) :=
  match applyPositionsList data with
  | Except.error _ => (st, [])
  | Except.ok positions =>
    let st2 := { st with positions := dictSet st.positions account_id positions }
    WebSocketManager.broadcast alive st2 (Msg.positions account_id positions)

/-- `WebSocketManager._on_orders_update` (src/api/websocket.py lines
175-223): ensure the per-account dict exists, apply the item loop in
place, and broadcast the current dict values unless an exception was
raised (in which case the partial in-place mutation persists but no
broadcast happens). -/
def WebSocketManager.onOrdersUpdate (alive : ℕ → Bool) (st : HubState)
    (account_id : String) (data : List OrderItem) : HubState × List (ℕ × Msg) :=
  let tbl := (dictLookup st.pendingOrders account_id).getD []
  let result := applyOrdersList tbl data
  let st2 := { st with pendingOrders := dictSet st.pendingOrders account_id result.1 }
  match result.2 with
  | some _ => (st2, [])
  | none =>
    WebSocketManager.broadcast alive st2
      (Msg.pendingOrders account_id (result.1.map (fun q => q.2)))

/-- External outcome of one session attempt of the connector loop:
`fail` is any connection error, closure or auth failure while still
running; `stopReq` is an explicit `disconnect()` arriving during the
session (it clears `_running`, so the loop exits without sleeping). -/
inductive LoopInput where
  | fail : LoopInput
  | stopReq : LoopInput
deriving DecidableEq, Repr

/-- Observable actions of the connector loop. -/
inductive ConnAction where
  | attempt : ConnAction
  | sleep : ℕ → ConnAction
deriving DecidableEq, Repr

/-- `self._reconnect_delay` (src/okx/ws_client.py line 56); never mutated. -/
def reconnect_delay : ℕ := 5

/-- The `while self._running` loop of `OKXWebSocketClient.connect`
(src/okx/ws_client.py lines 150-185): each iteration attempts a session;
on any failure, if still running it sleeps `reconnect_delay` and retries;
a `disconnect()` during the session clears `_running`, so the `if
self._running` guard skips the sleep and the `while` exits. -/
def OKXWebSocketClient.connect (running : Bool) : List LoopInput → List ConnAction
  | [] => []
  | i :: rest =>
    if running then
      match i with
      | LoopInput.fail =>
        ConnAction.attempt :: ConnAction.sleep reconnect_delay
          :: OKXWebSocketClient.connect true rest
      | LoopInput.stopReq => ConnAction.attempt :: OKXWebSocketClient.connect false rest
    else []

/-- Value of `self._running` after the loop has consumed the given inputs. -/
def runningAfter (running : Bool) : List LoopInput → Bool
  | [] => running
  | i :: rest =>
    if running then
      match i with
      | LoopInput.fail => runningAfter true rest
      | LoopInput.stopReq => runningAfter false rest
    else false

/-- `CurrencySnapshot` dataclass (src/db/models.py lines 12-20). -/
structure CurrencySnapshot where
  ccy : String
  bal : ℚ
  avail_bal : ℚ
  frozen_bal : ℚ
  eq : ℚ
  eq_usd : ℚ
deriving DecidableEq, Repr

/-- `BalanceSnapshot` dataclass (src/db/models.py lines 23-33). -/
structure BalanceSnapshot where
  account_id : String
  timestamp : ℤ
  total_equity : ℚ
  available : ℚ
  frozen : ℚ
  margin_used : ℚ
  unrealized_pnl : ℚ
  currencies : List CurrencySnapshot
deriving DecidableEq, Repr

/-- One row of the `balance_snapshots` table (src/db/database.py lines
48-61): rowid primary key with `UNIQUE(account_id, timestamp)`. -/
structure BalRow where
  id : ℕ
  account_id : String
  timestamp : ℤ
  total_equity : ℚ
  available : ℚ
  frozen : ℚ
  margin_used : ℚ
  unrealized_pnl : ℚ
  created_at : ℤ
deriving DecidableEq, Repr

/-- One row of the `currency_snapshots` table (src/db/database.py lines
64-76): `snapshot_id` references `balance_snapshots(id)` with
`ON DELETE CASCADE` (foreign keys are enabled in `get_db`). -/
structure CurRow where
  id : ℕ
  snapshot_id : ℕ
  ccy : String
  bal : ℚ
  avail_bal : ℚ
  frozen_bal : ℚ
  eq : ℚ
  eq_usd : ℚ
deriving DecidableEq, Repr

/-- The SQLite database state: both tables plus the AUTOINCREMENT
counters (SQLite rowids start at 1 and never repeat under AUTOINCREMENT). -/
structure DBState where
  balRows : List BalRow
  curRows : List CurRow
  nextBalId : ℕ
  nextCurId : ℕ
deriving Repr

/-- Whether a summary row conflicts with the snapshot on the
`UNIQUE(account_id, timestamp)` constraint. -/
def sameIdentity (s : BalanceSnapshot) (r : BalRow) : Bool :=
  decide (r.account_id = s.account_id) && decide (r.timestamp = s.timestamp)

/-- The loop inserting the `currency_snapshots` rows for a snapshot
(src/db/models.py lines 82-98), with consecutive AUTOINCREMENT ids. -/
def insertCurrencies (sid : ℕ) (nextId : ℕ) : List CurrencySnapshot → List CurRow
  | [] => []
  | c :: rest =>
    { id := nextId
      snapshot_id := sid
      ccy := c.ccy
      bal := c.bal
      avail_bal := c.avail_bal
      frozen_bal := c.frozen_bal
      eq := c.eq
      eq_usd := c.eq_usd } :: insertCurrencies sid (nextId + 1) rest

/-- `save_snapshot` (src/db/models.py lines 36-101).  `INSERT OR REPLACE`
deletes every row conflicting on `UNIQUE(account_id, timestamp)` — the
`ON DELETE CASCADE` foreign key removes the currency children of the
deleted rows — and inserts a fresh row with a fresh rowid, which is what
`cursor.lastrowid` reports.  The `if cursor.lastrowid == 0` branch of the
source is translated as written; it is dead because a fresh rowid is
never 0. -/
def save_snapshot (st : DBState) (snapshot : BalanceSnapshot) (now : ℤ) : DBState × ℕ :=
  let deletedIds := (st.balRows.filter (sameIdentity snapshot)).map (fun r => r.id)
  let newId := st.nextBalId
  let newRow : BalRow :=
    { id := newId
      account_id := snapshot.account_id
      timestamp := snapshot.timestamp
      total_equity := snapshot.total_equity
      available := snapshot.available
      frozen := snapshot.frozen
      margin_used := snapshot.margin_used
      unrealized_pnl := snapshot.unrealized_pnl
      created_at := now }
  let balRows1 := (st.balRows.filter (fun r => !sameIdentity snapshot r)) ++ [newRow]
  let curRows1 := st.curRows.filter (fun c => !decide (c.snapshot_id ∈ deletedIds))
  let lastrowid := newId
  let snapCur : ℕ × List CurRow :=
    if lastrowid = 0 then
      match balRows1.find? (sameIdentity snapshot) with
      | some row => (row.id, curRows1.filter (fun c => !decide (c.snapshot_id = row.id)))
      | none => (lastrowid, curRows1)
    else (lastrowid, curRows1)
  let snapshot_id := snapCur.1
  let curRowsFinal := snapCur.2 ++ insertCurrencies snapshot_id st.nextCurId snapshot.currencies
  ({ balRows := balRows1
     curRows := curRowsFinal
     nextBalId := newId + 1
     nextCurId := st.nextCurId + snapshot.currencies.length }, snapshot_id)

/-- Database well-formedness maintained by SQLite: rowids start at 1,
every stored id is below the AUTOINCREMENT counter, and every currency
row points below it (its parent was inserted earlier). -/
def DBWf (st : DBState) : Prop :=
  1 ≤ st.nextBalId
    ∧ (∀ r ∈ st.balRows, r.id < st.nextBalId)
    ∧ (∀ c ∈ st.curRows, c.snapshot_id < st.nextBalId)

instance : DecidablePred DBWf := fun st => by
  unfold DBWf
  infer_instance

/-- `cleanup_old_snapshots` (src/db/models.py lines 174-195): delete every
summary row strictly older than `now - retention_days` days (the cascade
removes their currency children, which `rowcount` does not count) and
return the number of summary rows deleted. -/
def cleanup_old_snapshots (st : DBState) (nowMs : ℤ) (retention_days : ℤ) : DBState × ℕ :=
  let cutoff_time := nowMs - retention_days * 24 * 60 * 60 * 1000
  let deleted := st.balRows.filter (fun r => decide (r.timestamp < cutoff_time))
  let deletedIds := deleted.map (fun r => r.id)
  ({ st with
      balRows := st.balRows.filter (fun r => !decide (r.timestamp < cutoff_time))
      curRows := st.curRows.filter (fun c => !decide (c.snapshot_id ∈ deletedIds)) },
    deleted.length)

/-- `RETENTION_DAYS = int(os.getenv("SNAPSHOT_RETENTION_DAYS", "90"))`
(src/scheduler/snapshot_task.py line 27), with the environment value
already parsed. -/
def RETENTION_DAYS (env : Option ℤ) : ℤ :=
  env.getD 90

/-- `cleanup_snapshots` (src/scheduler/snapshot_task.py lines 116-123):
the deletion result is awaited inside `try`; an error is logged and
swallowed, a success reports the count.  The return type has no error
channel: nothing propagates past the job. -/
def cleanup_snapshots (result : Except String ℕ) : Option ℕ :=
  match result with
  | Except.ok deleted => some deleted
  | Except.error _ => none

/-- Key of a raw positions item: `(item.get("instId", ""), item.get("posSide", "net"))`. -/
def rawPosKey (it : PosItem) : String × String :=
  (it.instId.getD "", it.posSide.getD "net")

/-- Key of a cached position entry. -/
def posKey (p : Position) : String × String :=
  (p.inst_id, p.pos_side)

/-- Replacing every raw numeric field that is missing, empty or
unparseable by the literal string value 0 (used to state that the balance
parser substitutes its default for such fields). -/
def sanitizeVal : RawVal → RawVal
  | RawVal.num q => RawVal.num q
  | _ => RawVal.num 0

/-- `sanitizeVal` applied to every numeric field of a balance detail. -/
def sanitizeDetail (d : BalDetail) : BalDetail :=
  { ccy := d.ccy
    cashBal := sanitizeVal d.cashBal
    availBal := sanitizeVal d.availBal
    frozenBal := sanitizeVal d.frozenBal
    eq := sanitizeVal d.eq
    eqUsd := sanitizeVal d.eqUsd }

/-- `sanitizeVal` applied to every numeric field of an account event. -/
def sanitizeAccount (ad : AccountData) : AccountData :=
  { totalEq := sanitizeVal ad.totalEq
    upl := sanitizeVal ad.upl
    imr := sanitizeVal ad.imr
    details := ad.details.map sanitizeDetail }

/-- Values on which `float(item.get(k, 0))` does not raise: an absent
key (defaulted to 0) or a numeric string.  The empty string raises here
— this bare pattern guards only `pos` (positions) and `sz` (orders). -/
def getD0Accepts : RawVal → Bool
  | RawVal.missing => true
  | RawVal.num _ => true
  | _ => false

/-- Values on which the `or 0` pattern and the truthiness-guarded
`float()` do not raise: absent keys and empty strings are defaulted;
only a non-numeric string raises. -/
def or0Accepts : RawVal → Bool
  | RawVal.bad => false
  | _ => true

/-- Values on which `int(item.get(k, 1) or 1)` and the truthiness-guarded
`int()` (timestamps) do not raise: absent keys and empty strings are
defaulted; a numeric string must be integral. -/
def or1IntAccepts : RawVal → Bool
  | RawVal.missing => true
  | RawVal.empty => true
  | RawVal.num q => decide (q.den = 1)
  | RawVal.bad => false

/-- A positions item on which every numeric parse of
`_on_positions_update` succeeds (defaulting rather than raising). -/
def posItemParses (it : PosItem) : Bool :=
  getD0Accepts it.pos && or0Accepts it.avgPx && or0Accepts it.markPx
    && or0Accepts it.upl && or0Accepts it.uplRatio && or0Accepts it.margin
    && or1IntAccepts it.lever

/-- An order item on which every numeric parse of `_on_orders_update`
succeeds (defaulting rather than raising). -/
def orderItemParses (it : OrderItem) : Bool :=
  getD0Accepts it.sz && or0Accepts it.px && or0Accepts it.fillSz
    && or0Accepts it.avgPx && or1IntAccepts it.lever
    && or1IntAccepts it.cTime && or1IntAccepts it.uTime

/-- The USDT detail row of the balance scenario: available 8000, frozen
500, equity 10000.5 (§8 of the specification). -/
def detailUSDT : BalDetail :=
  { ccy := some "USDT"
    cashBal := RawVal.missing
    availBal := RawVal.num 8000
    frozenBal := RawVal.num 500
    eq := RawVal.num (mkRat 20001 2)
    eqUsd := RawVal.missing }

/-- The BTC detail row of the balance scenario: only the equity-in-quote
field (`eqUsd`) carries 25000; to exercise the nonzero-balance reading it
also carries a (nonzero, negative) cash balance. -/
def detailBTC : BalDetail :=
  { ccy := some "BTC"
    cashBal := RawVal.num (-5)
    availBal := RawVal.missing
    frozenBal := RawVal.missing
    eq := RawVal.missing
    eqUsd := RawVal.num 25000 }

/-- The balance scenario event: top-level total equity 10000.5 with the
USDT and BTC detail rows. -/
def adScenario : AccountData :=
  { totalEq := RawVal.num (mkRat 20001 2)
    upl := RawVal.missing
    imr := RawVal.missing
    details := [detailUSDT, detailBTC] }

/-- An empty hub state. -/
def hub0 : HubState :=
  { clients := [], balances := [], positions := [], pendingOrders := [] }

/-- A positions item whose `pos` field is the empty string (every other
field absent). -/
def pItemEmptyPos : PosItem :=
  { instId := some "BTC-USDT-SWAP"
    posSide := some "long"
    pos := RawVal.empty
    avgPx := RawVal.missing
    markPx := RawVal.missing
    upl := RawVal.missing
    uplRatio := RawVal.missing
    margin := RawVal.missing
    lever := RawVal.missing }

/-- The same positions item with `pos` carrying the default value 0. -/
def pItemZeroPos : PosItem :=
  { pItemEmptyPos with pos := RawVal.num 0 }

/-- A positions item with every numeric field absent. -/
def pItemMissing : PosItem :=
  { instId := some "ETH-USDT-SWAP"
    posSide := some "short"
    pos := RawVal.missing
    avgPx := RawVal.missing
    markPx := RawVal.missing
    upl := RawVal.missing
    uplRatio := RawVal.missing
    margin := RawVal.missing
    lever := RawVal.missing }

/-- An order item with every numeric field absent. -/
def oItemMissing : OrderItem :=
  { ordId := some "77"
    state := some "live"
    instId := some "BTC-USDT-SWAP"
    side := some "buy"
    posSide := some "long"
    ordType := some "limit"
    sz := RawVal.missing
    px := RawVal.missing
    fillSz := RawVal.missing
    avgPx := RawVal.missing
    lever := RawVal.missing
    cTime := RawVal.missing
    uTime := RawVal.missing }

/-- A positions item with nonzero size whose `or 0`-parsed numeric
fields are all empty strings (they default, none raises). -/
def pItemEmptyFields : PosItem :=
  { instId := some "BTC-USDT-SWAP"
    posSide := some "long"
    pos := RawVal.num 2
    avgPx := RawVal.empty
    markPx := RawVal.empty
    upl := RawVal.empty
    uplRatio := RawVal.empty
    margin := RawVal.empty
    lever := RawVal.empty }

/-- A live order item whose `or`-patterned and truthiness-guarded
numeric fields are all empty strings (they default, none raises). -/
def oItemEmptyFields : OrderItem :=
  { ordId := some "z"
    state := some "live"
    instId := some "BTC-USDT-SWAP"
    side := some "buy"
    posSide := some "long"
    ordType := some "limit"
    sz := RawVal.num 1
    px := RawVal.empty
    fillSz := RawVal.empty
    avgPx := RawVal.empty
    lever := RawVal.empty
    cTime := RawVal.empty
    uTime := RawVal.empty }

/-- A well-formed live order item for order `"y"`. -/
def oItemLiveY : OrderItem :=
  { ordId := some "y"
    state := some "live"
    instId := some "BTC-USDT-SWAP"
    side := some "buy"
    posSide := some "long"
    ordType := some "limit"
    sz := RawVal.num 1
    px := RawVal.missing
    fillSz := RawVal.missing
    avgPx := RawVal.missing
    lever := RawVal.missing
    cTime := RawVal.missing
    uTime := RawVal.missing }

/-- A live order item whose `sz` field is a non-numeric string, making
`float(item.get("sz", 0))` raise mid-loop. -/
def oItemBadSz : OrderItem :=
  { ordId := some "w"
    state := some "live"
    instId := some "BTC-USDT-SWAP"
    side := some "buy"
    posSide := some "long"
    ordType := some "limit"
    sz := RawVal.bad
    px := RawVal.missing
    fillSz := RawVal.missing
    avgPx := RawVal.missing
    lever := RawVal.missing
    cTime := RawVal.missing
    uTime := RawVal.missing }

/-- A live pending order stored under key `"x"`. -/
def orderLiveX : PendingOrder :=
  { order_id := "x"
    inst_id := "BTC-USDT-SWAP"
    side := "buy"
    pos_side := "long"
    order_type := "limit"
    sz := 1
    px := some 50000
    fill_sz := 0
    avg_px := none
    state := "live"
    lever := 10
    created_at := some 1700000000000
    updated_at := some 1700000000000 }

/-- An order event item reporting order `"x"` as canceled. -/
def oItemCancelX : OrderItem :=
  { ordId := some "x"
    state := some "canceled"
    instId := some "BTC-USDT-SWAP"
    side := some "buy"
    posSide := some "long"
    ordType := some "limit"
    sz := RawVal.num 1
    px := RawVal.num 50000
    fillSz := RawVal.num 0
    avgPx := RawVal.missing
    lever := RawVal.num 10
    cTime := RawVal.num 1700000000000
    uTime := RawVal.num 1700000000000 }

/-- A positions item for a nonzero BTC long position. -/
def pItemBTC : PosItem :=
  { instId := some "BTC-USDT-SWAP"
    posSide := some "long"
    pos := RawVal.num 2
    avgPx := RawVal.num 40000
    markPx := RawVal.num 41000
    upl := RawVal.num 2000
    uplRatio := RawVal.num (mkRat 1 10)
    margin := RawVal.num 8000
    lever := RawVal.num 10 }

/-- The cached position entry produced from `pItemBTC`. -/
def posBTC : Position :=
  { inst_id := "BTC-USDT-SWAP"
    pos_side := "long"
    pos := 2
    avg_px := 40000
    mark_px := 41000
    upl := 2000
    upl_ratio := mkRat 1 10
    margin := 8000
    lever := 10 }

/-- A small cached balance used by the replay witness. -/
def biW : BalanceInfo :=
  { total_equity := 1, available := 2, frozen := 3, unrealized_pnl := 4, margin_used := 5, assets := [] }

/-- A hub state with cached data for one account `"a"`, used by the
replay witness. -/
def hubW : HubState :=
  { clients := [0]
    balances := [("a", biW)]
    positions := [("a", [posBTC])]
    pendingOrders := [("a", [("x", orderLiveX)])] }

/-- The empty freshly-created database. -/
def dbEmpty : DBState :=
  { balRows := [], curRows := [], nextBalId := 1, nextCurId := 1 }

/-- A concrete snapshot with two currency rows, used by the idempotence
witness. -/
def snapW : BalanceSnapshot :=
  { account_id := "a"
    timestamp := 1700000000000
    total_equity := 10
    available := 6
    frozen := 1
    margin_used := 2
    unrealized_pnl := 1
    currencies :=
      [ { ccy := "USDT", bal := 6, avail_bal := 6, frozen_bal := 0, eq := 6, eq_usd := 6 },
        { ccy := "BTC", bal := 1, avail_bal := 1, frozen_bal := 0, eq := 4, eq_usd := 4 } ] }

/-!  Theorems.  -/

theorem disconnect_eq_erase (l : List ℕ) (c : ℕ) :
    WebSocketManager.disconnect l c = l.erase c := by
  unfold WebSocketManager.disconnect
  by_cases h : c ∈ l
  · rw [if_pos h]
  · rw [if_neg h, List.erase_of_not_mem h]

theorem foldl_erase_cons (ds : List ℕ) (c : ℕ) (h : c ∉ ds) :
    ∀ l : List ℕ, ds.foldl List.erase (c :: l) = c :: ds.foldl List.erase l := by
  induction ds with
  | nil => intro l; rfl
  | cons d ds ih =>
    intro l
    have hdc : ¬(c == d) = true := by
      simp only [beq_iff_eq]
      intro hcd
      exact h (hcd ▸ List.mem_cons_self c ds)
    have h2 : c ∉ ds := fun hm => h (List.mem_cons_of_mem d hm)
    simp only [List.foldl_cons]
    rw [List.erase_cons_tail (by simpa using hdc)]
    exact ih h2 (l.erase d)

theorem foldl_erase_filter (alive : ℕ → Bool) (l : List ℕ) :
    (l.filter (fun c => !alive c)).foldl List.erase l = l.filter (fun c => alive c) := by
  induction l with
  | nil => rfl
  | cons c l ih =>
    by_cases h : alive c
    · rw [List.filter_cons_of_neg (by simp [h]), List.filter_cons_of_pos (by simp [h])]
      have hnot : c ∉ l.filter (fun c => !alive c) := by
        intro hm
        have := List.of_mem_filter hm
        simp [h] at this
      rw [foldl_erase_cons _ _ hnot]
      exact congrArg (c :: ·) ih
    · rw [List.filter_cons_of_pos (by simp [h]), List.filter_cons_of_neg (by simp [h])]
      simp only [List.foldl_cons, List.erase_cons_head]
      exact ih

/-- C6: in a broadcast pass, exactly the observers whose send succeeds
receive the message (one failure never blocks the others), the call is a
total function (it never raises), and exactly the failed observers are
removed from the active set afterwards. -/
theorem broadcast_isolation (alive : ℕ → Bool) (st : HubState) (m : Msg) :
    (WebSocketManager.broadcast alive st m).2
        = (st.clients.filter (fun c => alive c)).map (fun c => (c, m))
      ∧ (WebSocketManager.broadcast alive st m).1.clients
        = st.clients.filter (fun c => alive c) := by
  refine ⟨rfl, ?_⟩
  show (st.clients.filter (fun c => !alive c)).foldl WebSocketManager.disconnect st.clients
      = st.clients.filter (fun c => alive c)
  have hfun : ∀ (l : List ℕ) (c : ℕ),
      WebSocketManager.disconnect l c = List.erase l c := disconnect_eq_erase
  rw [funext fun l => funext fun c => hfun l c]
  exact foldl_erase_filter alive st.clients

/-- C10: a balance event whose data list is empty leaves the hub state
unchanged (the cached balance is not replaced) and broadcasts nothing. -/
theorem empty_balance_event_noop (alive : ℕ → Bool) (st : HubState) (account_id : String) :
    WebSocketManager.onBalanceUpdate alive st account_id [] = (st, []) := rfl

/-- C8: while not explicitly stopped, every failure leads to a fixed
5-unit sleep followed by an unconditional retry (the loop never halts on
its own); the running flag is cleared only by an explicit disconnect. -/
theorem connector_retry_spec (inputs : List LoopInput) :
    ((∀ i ∈ inputs, i = LoopInput.fail) →
        OKXWebSocketClient.connect true inputs
            = (inputs.map (fun _ => [ConnAction.attempt, ConnAction.sleep 5])).flatten
          ∧ runningAfter true inputs = true)
      ∧ (runningAfter true inputs = false → LoopInput.stopReq ∈ inputs) := by
  induction inputs with
  | nil => exact ⟨fun _ => ⟨rfl, rfl⟩, fun h => absurd h (by simp [runningAfter])⟩
  | cons i rest ih =>
    constructor
    · intro hall
      have hi : i = LoopInput.fail := hall i (List.mem_cons_self i rest)
      subst hi
      have hrest := ih.1 (fun j hj => hall j (List.mem_cons_of_mem _ hj))
      refine ⟨?_, ?_⟩
      · show ConnAction.attempt :: ConnAction.sleep reconnect_delay
              :: OKXWebSocketClient.connect true rest = _
        rw [hrest.1]
        rfl
      · show runningAfter true rest = true
        exact hrest.2
    · intro hstop
      cases i with
      | fail =>
        have : runningAfter true rest = false := hstop
        exact List.mem_cons_of_mem _ (ih.2 this)
      | stopReq => exact List.mem_cons_self _ _

/-- C8 witness: two consecutive failures produce attempt, sleep 5,
attempt, sleep 5, and the connector is still running. -/
theorem connector_retry_spec_witness :
    (∀ i ∈ [LoopInput.fail, LoopInput.fail], i = LoopInput.fail)
      ∧ (OKXWebSocketClient.connect true [LoopInput.fail, LoopInput.fail]
            = [ConnAction.attempt, ConnAction.sleep 5, ConnAction.attempt, ConnAction.sleep 5]
          ∧ runningAfter true [LoopInput.fail, LoopInput.fail] = true) :=
  ⟨by decide, (connector_retry_spec [LoopInput.fail, LoopInput.fail]).1 (by decide)⟩

/-- C9: the retention cleanup deletes exactly the snapshot rows whose
bucket timestamp is strictly older than now minus the retention window,
returns the number of deleted rows, the window defaults to 90 days, and
the cleanup job swallows a deletion error (it has no error channel). -/
theorem retention_cleanup_spec (st : DBState) (nowMs retention_days : ℤ) :
    (∀ r : BalRow, r ∈ (cleanup_old_snapshots st nowMs retention_days).1.balRows ↔
        r ∈ st.balRows ∧ ¬(r.timestamp < nowMs - retention_days * 24 * 60 * 60 * 1000))
      ∧ (cleanup_old_snapshots st nowMs retention_days).2
        = (st.balRows.filter
            (fun r => decide (r.timestamp < nowMs - retention_days * 24 * 60 * 60 * 1000))).length
      ∧ RETENTION_DAYS none = 90
      ∧ (∀ e : String, cleanup_snapshots (Except.error e) = none)
      ∧ (∀ n : ℕ, cleanup_snapshots (Except.ok n) = some n) := by
  refine ⟨?_, rfl, rfl, fun _ => rfl, fun _ => rfl⟩
  intro r
  simp [cleanup_old_snapshots, List.mem_filter]

theorem insertByEqDesc_perm (x : Asset) (l : List Asset) :
    (insertByEqDesc x l).Perm (x :: l) := by
  induction l with
  | nil => exact List.Perm.refl _
  | cons y ys ih =>
    unfold insertByEqDesc
    by_cases h : x.eq < y.eq
    · rw [if_pos h]
      exact (ih.cons y).trans (List.Perm.swap x y ys)
    · rw [if_neg h]

theorem sortByEqDesc_perm (l : List Asset) : (sortByEqDesc l).Perm l := by
  induction l with
  | nil => exact List.Perm.refl _
  | cons x xs ih =>
    exact (insertByEqDesc_perm x (sortByEqDesc xs)).trans (ih.cons x)

theorem insertByEqDesc_pairwise (x : Asset) (l : List Asset)
    (h : l.Pairwise (fun a b => b.eq ≤ a.eq)) :
    (insertByEqDesc x l).Pairwise (fun a b => b.eq ≤ a.eq) := by
  induction l with
  | nil => simp [insertByEqDesc]
  | cons y ys ih =>
    rcases List.pairwise_cons.1 h with ⟨hy, hys⟩
    unfold insertByEqDesc
    by_cases hc : x.eq < y.eq
    · rw [if_pos hc]
      refine List.pairwise_cons.2 ⟨?_, ih hys⟩
      intro z hz
      rcases List.mem_cons.1 ((insertByEqDesc_perm x ys).mem_iff.1 hz) with hzx | hzy
      · subst hzx
        exact le_of_lt hc
      · exact hy z hzy
    · rw [if_neg hc]
      have hxy : y.eq ≤ x.eq := le_of_not_lt hc
      refine List.pairwise_cons.2 ⟨?_, h⟩
      intro z hz
      rcases List.mem_cons.1 hz with hzy | hzys
      · exact hzy ▸ hxy
      · exact le_trans (hy z hzys) hxy

theorem sortByEqDesc_pairwise (l : List Asset) :
    (sortByEqDesc l).Pairwise (fun a b => b.eq ≤ a.eq) := by
  induction l with
  | nil => simp [sortByEqDesc]
  | cons x xs ih => exact insertByEqDesc_pairwise x (sortByEqDesc xs) ih

theorem dictLookup_cons_pos {α : Type} (p : String × α) (m : List (String × α)) (k : String)
    (h : p.1 = k) : dictLookup (p :: m) k = some p.2 := by
  simp [dictLookup, List.find?_cons, h]

theorem dictLookup_cons_neg {α : Type} (p : String × α) (m : List (String × α)) (k : String)
    (h : ¬p.1 = k) : dictLookup (p :: m) k = dictLookup m k := by
  simp [dictLookup, List.find?_cons, h]

theorem dictLookup_dictSet {α : Type} (m : List (String × α)) (k : String) (v : α) :
    dictLookup (dictSet m k v) k = some v := by
  induction m with
  | nil =>
    unfold dictSet
    rw [if_neg (by simp)]
    exact dictLookup_cons_pos _ _ _ rfl
  | cons p m ih =>
    by_cases hp : p.1 = k
    · have hany : (p :: m).any (fun q => decide (q.1 = k)) = true := by
        simp [List.any_cons, hp]
      unfold dictSet
      rw [if_pos hany, List.map_cons, if_pos hp]
      exact dictLookup_cons_pos _ _ _ rfl
    · by_cases hm : m.any (fun q => decide (q.1 = k)) = true
      · have hany : (p :: m).any (fun q => decide (q.1 = k)) = true := by
          simp [List.any_cons, hm]
        unfold dictSet
        rw [if_pos hany, List.map_cons, if_neg hp, dictLookup_cons_neg _ _ _ hp]
        unfold dictSet at ih
        rw [if_pos hm] at ih
        exact ih
      · have hany : ¬(p :: m).any (fun q => decide (q.1 = k)) = true := by
          simpa [List.any_cons, hp] using hm
        unfold dictSet
        rw [if_neg hany, List.cons_append, dictLookup_cons_neg _ _ _ hp]
        unfold dictSet at ih
        rw [if_neg hm] at ih
        exact ih

/-- C2 (amended): the cached Balance holds exactly the currency rows of
the event whose parsed balance or equity is strictly positive, sorted by
the per-currency equity field descending; its total_equity is read from
the top-level total-equity field; and the cached entry for the account is
replaced wholesale by the new value. -/
theorem balance_merge_spec (ad : AccountData) (alive : ℕ → Bool) (st : HubState)
    (account_id : String) (rest : List AccountData) :
    ((buildBalanceInfo ad).assets).Perm ((ad.details.filter keepDetail).map parseAsset)
      ∧ (buildBalanceInfo ad).assets.Pairwise (fun a b => b.eq ≤ a.eq)
      ∧ (buildBalanceInfo ad).total_equity = safe_float ad.totalEq 0
      ∧ dictLookup
          (WebSocketManager.onBalanceUpdate alive st account_id (ad :: rest)).1.balances
          account_id = some (buildBalanceInfo ad) := by
  have hassets : (buildBalanceInfo ad).assets
      = sortByEqDesc ((ad.details.filter keepDetail).map parseAsset) := rfl
  refine ⟨?_, ?_, rfl, ?_⟩
  · rw [hassets]
    exact sortByEqDesc_perm _
  · rw [hassets]
    exact sortByEqDesc_pairwise _
  · have hbal : (WebSocketManager.onBalanceUpdate alive st account_id (ad :: rest)).1.balances
        = dictSet st.balances account_id (buildBalanceInfo ad) := rfl
    rw [hbal]
    exact dictLookup_dictSet _ _ _

/-- C2 counterexample: in the §8 scenario the BTC row carries only the
equity-in-quote field (plus a nonzero, negative cash balance); its parsed
balance is nonzero yet the code drops it (the filter keeps only strictly
positive balance or equity, and sorting uses the `eq` field, not
`eqUsd`), so the cached assets are `[USDT]`, not `[BTC, USDT]`. -/
theorem balance_scenario_counterexample :
    (buildBalanceInfo adScenario).assets.map Asset.ccy = ["USDT"]
      ∧ (buildBalanceInfo adScenario).assets.map Asset.ccy ≠ ["BTC", "USDT"]
      ∧ safe_float detailBTC.cashBal 0 ≠ 0
      ∧ (∀ a ∈ (buildBalanceInfo adScenario).assets, a.ccy ≠ "BTC")
      ∧ (buildBalanceInfo adScenario).total_equity = 10000.5 := by
  refine ⟨by decide, by decide, by decide, by decide, ?_⟩
  have h : (buildBalanceInfo adScenario).total_equity = mkRat 20001 2 := by decide
  rw [h, Rat.mkRat_eq_div]
  norm_num

theorem sf_sanitize (v : RawVal) : safe_float (sanitizeVal v) 0 = safe_float v 0 := by
  cases v <;> rfl

theorem parseAsset_sanitize (d : BalDetail) : parseAsset (sanitizeDetail d) = parseAsset d := by
  simp [parseAsset, sanitizeDetail, sf_sanitize]

theorem keepDetail_sanitize (d : BalDetail) : keepDetail (sanitizeDetail d) = keepDetail d := by
  simp [keepDetail, sanitizeDetail, sf_sanitize]

theorem assets_sanitize (details : List BalDetail) :
    ((details.map sanitizeDetail).filter keepDetail).map parseAsset
      = (details.filter keepDetail).map parseAsset := by
  induction details with
  | nil => rfl
  | cons d ds ih =>
    simp only [List.map_cons, List.filter_cons, keepDetail_sanitize]
    by_cases h : keepDetail d = true
    · simp [h, parseAsset_sanitize, ih]
    · simp [h, ih]

theorem find_usdt_sanitize (details : List BalDetail) :
    (details.map sanitizeDetail).find? (fun d => decide (d.ccy = some "USDT"))
      = Option.map sanitizeDetail (details.find? (fun d => decide (d.ccy = some "USDT"))) := by
  induction details with
  | nil => rfl
  | cons d ds ih =>
    have hccy : (sanitizeDetail d).ccy = d.ccy := rfl
    by_cases h : d.ccy = some "USDT"
    · simp [List.find?_cons, hccy, h]
    · simp [List.find?_cons, hccy, h, ih]

theorem buildBalanceInfo_sanitize (ad : AccountData) :
    buildBalanceInfo (sanitizeAccount ad) = buildBalanceInfo ad := by
  have hdet : (sanitizeAccount ad).details = ad.details.map sanitizeDetail := rfl
  simp only [buildBalanceInfo, hdet, find_usdt_sanitize]
  cases hf : ad.details.find? (fun d => decide (d.ccy = some "USDT")) with
  | none =>
    simp [sanitizeAccount, sf_sanitize, assets_sanitize]
  | some d =>
    simp [sanitizeAccount, sf_sanitize, assets_sanitize, sanitizeDetail]

theorem getD0_ok {v : RawVal} (h : getD0Accepts v = true) :
    ∃ q, floatGetD0 v = Except.ok q := by
  cases v with
  | missing => exact ⟨0, rfl⟩
  | empty => exact absurd h (by decide)
  | num q => exact ⟨q, rfl⟩
  | bad => exact absurd h (by decide)

theorem or0_ok {v : RawVal} (h : or0Accepts v = true) :
    ∃ q, floatGetOr0 v = Except.ok q := by
  cases v with
  | missing => exact ⟨0, rfl⟩
  | empty => exact ⟨0, rfl⟩
  | num q => exact ⟨q, rfl⟩
  | bad => exact absurd h (by decide)

theorem optFloat_ok {v : RawVal} (h : or0Accepts v = true) :
    ∃ o, optFloat v = Except.ok o := by
  cases v with
  | missing => exact ⟨none, rfl⟩
  | empty => exact ⟨none, rfl⟩
  | num q => exact ⟨some q, rfl⟩
  | bad => exact absurd h (by decide)

theorem or1Int_ok {v : RawVal} (h : or1IntAccepts v = true) :
    ∃ n, intGetOr1 v = Except.ok n := by
  cases v with
  | missing => exact ⟨1, rfl⟩
  | empty => exact ⟨1, rfl⟩
  | num q =>
    have hden : q.den = 1 := by simpa [or1IntAccepts] using h
    exact ⟨q.num, by simp [intGetOr1, pyInt, hden]⟩
  | bad => exact absurd h (by decide)

theorem optTs_ok {v : RawVal} (h : or1IntAccepts v = true) :
    ∃ o, optTimestamp v = Except.ok o := by
  cases v with
  | missing => exact ⟨none, rfl⟩
  | empty => exact ⟨none, rfl⟩
  | num q =>
    have hden : q.den = 1 := by simpa [or1IntAccepts] using h
    exact ⟨some q.num, by simp [optTimestamp, hden]⟩
  | bad => exact absurd h (by decide)

theorem convertPosItem_parses (it : PosItem) (h : posItemParses it = true) :
    ∃ r, convertPosItem it = Except.ok r := by
  simp only [posItemParses, Bool.and_eq_true] at h
  obtain ⟨⟨⟨⟨⟨⟨hp, h1⟩, h2⟩, h3⟩, h4⟩, h5⟩, h6⟩ := h
  obtain ⟨q, hq⟩ := getD0_ok hp
  by_cases hq0 : q = 0
  · subst hq0
    exact ⟨none, by simp [convertPosItem, hq]⟩
  · obtain ⟨a1, e1⟩ := or0_ok h1
    obtain ⟨a2, e2⟩ := or0_ok h2
    obtain ⟨a3, e3⟩ := or0_ok h3
    obtain ⟨a4, e4⟩ := or0_ok h4
    obtain ⟨a5, e5⟩ := or0_ok h5
    obtain ⟨a6, e6⟩ := or1Int_ok h6
    have hc : convertPosItem it = Except.ok (some {
        inst_id := it.instId.getD ""
        pos_side := it.posSide.getD "net"
        pos := q
        avg_px := a1
        mark_px := a2
        upl := a3
        upl_ratio := a4
        margin := a5
        lever := a6 }) := by
      simp [convertPosItem, hq, e1, e2, e3, e4, e5, e6, hq0]
    exact ⟨_, hc⟩

theorem convertOrderItem_parses (it : OrderItem) (h : orderItemParses it = true) :
    ∃ v, convertOrderItem it = Except.ok v := by
  simp only [orderItemParses, Bool.and_eq_true] at h
  obtain ⟨⟨⟨⟨⟨⟨hsz, hpx⟩, hfs⟩, hap⟩, hlv⟩, hct⟩, hut⟩ := h
  obtain ⟨ctv, ect⟩ := optTs_ok hct
  obtain ⟨utv, eut⟩ := optTs_ok hut
  obtain ⟨szv, esz⟩ := getD0_ok hsz
  obtain ⟨pxv, epx⟩ := optFloat_ok hpx
  obtain ⟨fsv, efs⟩ := or0_ok hfs
  obtain ⟨apv, eap⟩ := optFloat_ok hap
  obtain ⟨lvv, elv⟩ := or1Int_ok hlv
  have hc : convertOrderItem it = Except.ok {
      order_id := it.ordId.getD ""
      inst_id := it.instId.getD ""
      side := it.side.getD ""
      pos_side := it.posSide.getD "net"
      order_type := it.ordType.getD ""
      sz := szv
      px := pxv
      fill_sz := fsv
      avg_px := apv
      state := it.state.getD ""
      lever := lvv
      created_at := ctv
      updated_at := utv } := by
    simp [convertOrderItem, ect, eut, esz, epx, efs, eap, elv]
  exact ⟨_, hc⟩

/-- C3 (amended): the balance operation substitutes zero for every
missing, empty or unparseable numeric field and never raises (its result
equals the result on the event with those fields replaced by 0).  The
positions and orders operations default missing fields everywhere, and
also default empty strings in every field parsed with the `or 0` /
`or 1` pattern or behind a truthiness guard; only the bare `float()` on
`pos` (positions) and `sz` (orders) raises on an empty string, and a
non-numeric string (or non-integral string for the integer fields)
raises in any positions or orders numeric field.  Such a raise aborts
that update: the positions cache is left unchanged and nothing is
broadcast, while the orders table keeps the upserts and removals applied
before the raise (the dict is mutated in place) and nothing is
broadcast. -/
theorem numeric_parse_defaults :
    (∀ ad : AccountData, buildBalanceInfo (sanitizeAccount ad) = buildBalanceInfo ad)
      ∧ (∀ items : List PosItem, (∀ it ∈ items, posItemParses it = true) →
          ∃ res, applyPositionsList items = Except.ok res)
      ∧ (∀ (tbl : List (String × PendingOrder)) (items : List OrderItem),
          (∀ it ∈ items, orderItemParses it = true) → (applyOrdersList tbl items).2 = none)
      ∧ (∀ (alive : ℕ → Bool) (st : HubState) (account_id : String) (items : List PosItem),
          applyPositionsList items = Except.error () →
          WebSocketManager.onPositionsUpdate alive st account_id items = (st, []))
      ∧ (∀ (alive : ℕ → Bool) (st : HubState) (account_id : String) (items : List OrderItem),
          (applyOrdersList ((dictLookup st.pendingOrders account_id).getD []) items).2
              = some () →
          WebSocketManager.onOrdersUpdate alive st account_id items
            = ({ st with
                  pendingOrders := dictSet st.pendingOrders account_id
                      (applyOrdersList ((dictLookup st.pendingOrders account_id).getD [])
                        items).1 }, [])) := by
  refine ⟨buildBalanceInfo_sanitize, ?_, ?_, ?_, ?_⟩
  · intro items h
    induction items with
    | nil => exact ⟨[], rfl⟩
    | cons it rest ih =>
      obtain ⟨r, hr⟩ := convertPosItem_parses it (h it (List.mem_cons_self _ _))
      obtain ⟨res, hres⟩ := ih (fun j hj => h j (List.mem_cons_of_mem _ hj))
      cases r with
      | none =>
        refine ⟨res, ?_⟩
        rw [applyPositionsList, hr]
        exact hres
      | some p =>
        refine ⟨p :: res, ?_⟩
        rw [applyPositionsList, hr, hres]
  · intro tbl items
    induction items generalizing tbl with
    | nil => intro _; rfl
    | cons it rest ih =>
      intro h
      obtain ⟨v, hv⟩ := convertOrderItem_parses it (h it (List.mem_cons_self _ _))
      have hrest : ∀ j ∈ rest, orderItemParses j = true :=
        fun j hj => h j (List.mem_cons_of_mem _ hj)
      by_cases hst : isPendingState (it.state.getD "") = true
      · have heq : applyOrdersList tbl (it :: rest)
            = applyOrdersList (dictSet tbl (it.ordId.getD "") v) rest := by
          simp [applyOrdersList, hst, hv]
        rw [heq]
        exact ih _ hrest
      · have hst2 : isPendingState (it.state.getD "") = false := by simpa using hst
        have heq : applyOrdersList tbl (it :: rest)
            = applyOrdersList (removeOrder tbl (it.ordId.getD "")) rest := by
          simp [applyOrdersList, hst2]
        rw [heq]
        exact ih _ hrest
  · intro alive st account_id items h
    simp only [WebSocketManager.onPositionsUpdate, h]
  · intro alive st account_id items h
    simp only [WebSocketManager.onOrdersUpdate, h]

/-- C3 witness: the amended guarantees at concrete inputs — empty
strings default in every `or`-patterned field of positions and orders
(and missing fields everywhere), an empty `pos` aborts the positions
update leaving the cache unchanged, and an order event raising on its
second item keeps the first item upserted with nothing broadcast. -/
theorem numeric_parse_defaults_witness :
    buildBalanceInfo (sanitizeAccount adScenario) = buildBalanceInfo adScenario
      ∧ (∀ it ∈ [pItemEmptyFields], posItemParses it = true)
      ∧ (∃ res, applyPositionsList [pItemEmptyFields] = Except.ok res)
      ∧ (∀ it ∈ [oItemEmptyFields, oItemMissing], orderItemParses it = true)
      ∧ (applyOrdersList [] [oItemEmptyFields, oItemMissing]).2 = none
      ∧ applyPositionsList [pItemEmptyPos] = Except.error ()
      ∧ WebSocketManager.onPositionsUpdate (fun _ => true) hub0 "a" [pItemEmptyPos] = (hub0, [])
      ∧ (applyOrdersList ((dictLookup hub0.pendingOrders "a").getD [])
          [oItemLiveY, oItemBadSz]).2 = some ()
      ∧ WebSocketManager.onOrdersUpdate (fun _ => true) hub0 "a" [oItemLiveY, oItemBadSz]
          = ({ hub0 with
                pendingOrders := dictSet hub0.pendingOrders "a"
                    (applyOrdersList ((dictLookup hub0.pendingOrders "a").getD [])
                      [oItemLiveY, oItemBadSz]).1 }, []) :=
  ⟨numeric_parse_defaults.1 adScenario,
    by decide,
    numeric_parse_defaults.2.1 [pItemEmptyFields] (by decide),
    by decide,
    numeric_parse_defaults.2.2.1 [] [oItemEmptyFields, oItemMissing] (by decide),
    by rfl,
    numeric_parse_defaults.2.2.2.1 (fun _ => true) hub0 "a" [pItemEmptyPos] (by rfl),
    by rfl,
    numeric_parse_defaults.2.2.2.2 (fun _ => true) hub0 "a" [oItemLiveY, oItemBadSz] (by rfl)⟩

/-- C3 counterexample: a positions event whose `pos` field is the empty
string raises (`float("")`), aborting the update with the cache left
unchanged and nothing broadcast — not the state that substituting the
default 0 would have produced (which replaces the cached entry and
broadcasts). -/
theorem positions_parse_failure_counterexample :
    applyPositionsList [pItemEmptyPos] = Except.error ()
      ∧ WebSocketManager.onPositionsUpdate (fun _ => true) hub0 "a" [pItemEmptyPos] = (hub0, [])
      ∧ WebSocketManager.onPositionsUpdate (fun _ => true) hub0 "a" [pItemZeroPos] ≠ (hub0, []) := by
  refine ⟨rfl, rfl, ?_⟩
  decide

theorem mem_dictSet {α : Type} {p : String × α} {m : List (String × α)} {k : String} {v : α}
    (h : p ∈ dictSet m k v) : p = (k, v) ∨ p ∈ m := by
  unfold dictSet at h
  by_cases hm : m.any (fun q => decide (q.1 = k)) = true
  · rw [if_pos hm] at h
    obtain ⟨q, hq, hfq⟩ := List.mem_map.1 h
    by_cases hqk : q.1 = k
    · left
      rw [← hfq, if_pos hqk]
    · right
      rw [← hfq, if_neg hqk]
      exact hq
  · rw [if_neg hm] at h
    rcases List.mem_append.1 h with h1 | h2
    · right; exact h1
    · left; simpa using h2

theorem convertOrderItem_state {it : OrderItem} {v : PendingOrder}
    (h : convertOrderItem it = Except.ok v) : v.state = it.state.getD "" := by
  unfold convertOrderItem at h
  split at h
  all_goals try exact Except.noConfusion h
  injection h with h1
  subst h1
  rfl

theorem applyOrders_inv (items : List OrderItem) :
    ∀ tbl : List (String × PendingOrder), (∀ p ∈ tbl, isPendingState p.2.state = true) →
      ∀ p ∈ (applyOrdersList tbl items).1, isPendingState p.2.state = true := by
  induction items with
  | nil => intro tbl h p hp; exact h p hp
  | cons it rest ih =>
    intro tbl h
    by_cases hst : isPendingState (it.state.getD "") = true
    · cases hv : convertOrderItem it with
      | error e =>
        have heq : applyOrdersList tbl (it :: rest) = (tbl, some ()) := by
          simp [applyOrdersList, hst, hv]
        rw [heq]
        exact h
      | ok v =>
        have heq : applyOrdersList tbl (it :: rest)
            = applyOrdersList (dictSet tbl (it.ordId.getD "") v) rest := by
          simp [applyOrdersList, hst, hv]
        rw [heq]
        apply ih
        intro p hp
        rcases mem_dictSet hp with hpe | hpm
        · rw [hpe]
          show isPendingState v.state = true
          rw [convertOrderItem_state hv]
          exact hst
        · exact h p hpm
    · have hst2 : isPendingState (it.state.getD "") = false := by simpa using hst
      have heq : applyOrdersList tbl (it :: rest)
          = applyOrdersList (removeOrder tbl (it.ordId.getD "")) rest := by
        simp [applyOrdersList, hst2]
      rw [heq]
      apply ih
      intro p hp
      exact h p (List.mem_of_mem_filter hp)

theorem applyOrders_keeps_absent (items : List OrderItem) :
    ∀ (tbl : List (String × PendingOrder)) (o : String),
      (∀ p ∈ tbl, p.1 ≠ o) →
      (∀ it ∈ items, it.ordId.getD "" = o → isPendingState (it.state.getD "") = false) →
      ∀ p ∈ (applyOrdersList tbl items).1, p.1 ≠ o := by
  induction items with
  | nil => intro tbl o habs _ p hp; exact habs p hp
  | cons it rest ih =>
    intro tbl o habs hall
    have hrest := fun j hj => hall j (List.mem_cons_of_mem _ hj)
    by_cases hst : isPendingState (it.state.getD "") = true
    · have hid : it.ordId.getD "" ≠ o := by
        intro hido
        rw [hall it (List.mem_cons_self _ _) hido] at hst
        exact Bool.false_ne_true hst
      cases hv : convertOrderItem it with
      | error e =>
        have heq : applyOrdersList tbl (it :: rest) = (tbl, some ()) := by
          simp [applyOrdersList, hst, hv]
        rw [heq]
        exact habs
      | ok v =>
        have heq : applyOrdersList tbl (it :: rest)
            = applyOrdersList (dictSet tbl (it.ordId.getD "") v) rest := by
          simp [applyOrdersList, hst, hv]
        rw [heq]
        apply ih
        · intro p hp
          rcases mem_dictSet hp with hpe | hpm
          · rw [hpe]
            exact hid
          · exact habs p hpm
        · exact hrest
    · have hst2 : isPendingState (it.state.getD "") = false := by simpa using hst
      have heq : applyOrdersList tbl (it :: rest)
          = applyOrdersList (removeOrder tbl (it.ordId.getD "")) rest := by
        simp [applyOrdersList, hst2]
      rw [heq]
      apply ih
      · intro p hp
        exact habs p (List.mem_of_mem_filter hp)
      · exact hrest

theorem applyOrders_removes (items : List OrderItem) :
    ∀ (tbl : List (String × PendingOrder)) (o : String),
      (applyOrdersList tbl items).2 = none →
      (∃ it ∈ items, it.ordId.getD "" = o) →
      (∀ it ∈ items, it.ordId.getD "" = o → isPendingState (it.state.getD "") = false) →
      ∀ p ∈ (applyOrdersList tbl items).1, p.1 ≠ o := by
  induction items with
  | nil =>
    intro tbl o _ hex _
    obtain ⟨it, hit, _⟩ := hex
    exact absurd hit (List.not_mem_nil it)
  | cons it rest ih =>
    intro tbl o hok hex hall
    have hrest := fun j hj => hall j (List.mem_cons_of_mem _ hj)
    by_cases hid : it.ordId.getD "" = o
    · have hst2 : isPendingState (it.state.getD "") = false :=
        hall it (List.mem_cons_self _ _) hid
      have heq : applyOrdersList tbl (it :: rest)
          = applyOrdersList (removeOrder tbl (it.ordId.getD "")) rest := by
        simp [applyOrdersList, hst2]
      rw [heq]
      apply applyOrders_keeps_absent
      · intro p hp
        have hf := List.of_mem_filter hp
        rw [hid] at hf
        simpa using hf
      · exact hrest
    · by_cases hst : isPendingState (it.state.getD "") = true
      · cases hv : convertOrderItem it with
        | error e =>
          have heq : applyOrdersList tbl (it :: rest) = (tbl, some ()) := by
            simp [applyOrdersList, hst, hv]
          rw [heq] at hok
          exact absurd hok (by simp)
        | ok v =>
          have heq : applyOrdersList tbl (it :: rest)
              = applyOrdersList (dictSet tbl (it.ordId.getD "") v) rest := by
            simp [applyOrdersList, hst, hv]
          rw [heq] at hok ⊢
          obtain ⟨j, hj, hjo⟩ := hex
          rcases List.mem_cons.1 hj with hje | hjr
          · exact absurd (hje ▸ hjo) hid
          · exact ih _ o hok ⟨j, hjr, hjo⟩ hrest
      · have hst2 : isPendingState (it.state.getD "") = false := by simpa using hst
        have heq : applyOrdersList tbl (it :: rest)
            = applyOrdersList (removeOrder tbl (it.ordId.getD "")) rest := by
          simp [applyOrdersList, hst2]
        rw [heq] at hok ⊢
        obtain ⟨j, hj, hjo⟩ := hex
        rcases List.mem_cons.1 hj with hje | hjr
        · exact absurd (hje ▸ hjo) hid
        · exact ih _ o hok ⟨j, hjr, hjo⟩ hrest

/-- C4: every order stored in the pending-order table has a live or
partially-filled status (preserved by every order event, even one whose
processing aborts mid-way), and an order id that the event reports only
with a non-pending status is absent from the table afterwards, even if
it was present before. -/
theorem pending_orders_invariant (tbl : List (String × PendingOrder)) (items : List OrderItem)
    (o : String) (hinv : ∀ p ∈ tbl, isPendingState p.2.state = true) :
    (∀ p ∈ (applyOrdersList tbl items).1, isPendingState p.2.state = true)
      ∧ ((applyOrdersList tbl items).2 = none →
          (∃ it ∈ items, it.ordId.getD "" = o) →
          (∀ it ∈ items, it.ordId.getD "" = o → isPendingState (it.state.getD "") = false) →
          ∀ p ∈ (applyOrdersList tbl items).1, p.1 ≠ o) :=
  ⟨applyOrders_inv items tbl hinv,
    fun hok hex hall => applyOrders_removes items tbl o hok hex hall⟩

/-- C4 witness: a table holding live order `"x"` receives a cancel event
for `"x"`; the invariant holds and `"x"` is gone. -/
theorem pending_orders_invariant_witness :
    (∀ p ∈ [("x", orderLiveX)], isPendingState p.2.state = true)
      ∧ (∀ p ∈ (applyOrdersList [("x", orderLiveX)] [oItemCancelX]).1,
          isPendingState p.2.state = true)
      ∧ (applyOrdersList [("x", orderLiveX)] [oItemCancelX]).2 = none
      ∧ (∃ it ∈ [oItemCancelX], it.ordId.getD "" = "x")
      ∧ (∀ it ∈ [oItemCancelX], it.ordId.getD "" = "x" →
          isPendingState (it.state.getD "") = false)
      ∧ (∀ p ∈ (applyOrdersList [("x", orderLiveX)] [oItemCancelX]).1, p.1 ≠ "x") := by
  have h := pending_orders_invariant [("x", orderLiveX)] [oItemCancelX] "x" (by decide)
  exact ⟨by decide, h.1, by decide, by decide, by decide,
    h.2 (by decide) (by decide) (by decide)⟩

theorem convertPosItem_key {it : PosItem} {p : Position}
    (h : convertPosItem it = Except.ok (some p)) : posKey p = rawPosKey it := by
  unfold convertPosItem at h
  split at h
  all_goals try exact Except.noConfusion h
  split at h
  · injection h with h1
    exact Option.noConfusion h1
  · split at h
    all_goals try exact Except.noConfusion h
    injection h with h1
    injection h1 with h2
    subst h2
    rfl

theorem convertPosItem_zero {it : PosItem} (h : floatGetD0 it.pos = Except.ok 0) :
    convertPosItem it = Except.ok none := by
  unfold convertPosItem
  rw [h]
  rfl

theorem convertPosItem_nonzero {it : PosItem} {q : ℚ}
    (hq : floatGetD0 it.pos = Except.ok q) (hq0 : ¬q = 0) {r : Option Position}
    (h : convertPosItem it = Except.ok r) : ∃ p, r = some p := by
  unfold convertPosItem at h
  split at h
  all_goals try exact Except.noConfusion h
  rename_i pos heq
  rw [heq] at hq
  injection hq with hq1
  subst hq1
  rw [if_neg hq0] at h
  split at h
  all_goals try exact Except.noConfusion h
  injection h with h1
  exact ⟨_, h1.symm⟩

theorem applyPos_success_mem (items : List PosItem) :
    ∀ res : List Position, applyPositionsList items = Except.ok res →
      ∀ it ∈ items, ∃ r, convertPosItem it = Except.ok r := by
  induction items with
  | nil => intro res _ it hit; exact absurd hit (List.not_mem_nil it)
  | cons jt rest ih =>
    intro res h it hit
    cases hv : convertPosItem jt with
    | error e =>
      rw [applyPositionsList, hv] at h
      exact Except.noConfusion h
    | ok r0 =>
      cases r0 with
      | none =>
        rw [applyPositionsList, hv] at h
        rcases List.mem_cons.1 hit with h1 | h2
        · exact ⟨none, h1 ▸ hv⟩
        · exact ih res h it h2
      | some p0 =>
        rw [applyPositionsList, hv] at h
        cases hr : applyPositionsList rest with
        | error e => rw [hr] at h; exact Except.noConfusion h
        | ok ps =>
          rcases List.mem_cons.1 hit with h1 | h2
          · exact ⟨some p0, h1 ▸ hv⟩
          · exact ih ps hr it h2

theorem applyPos_mem_src (items : List PosItem) :
    ∀ (res : List Position) (p : Position), applyPositionsList items = Except.ok res →
      p ∈ res → ∃ it ∈ items, convertPosItem it = Except.ok (some p) := by
  induction items with
  | nil =>
    intro res p h hp
    rw [applyPositionsList] at h
    injection h with h1
    rw [← h1] at hp
    exact absurd hp (List.not_mem_nil p)
  | cons jt rest ih =>
    intro res p h hp
    cases hv : convertPosItem jt with
    | error e =>
      rw [applyPositionsList, hv] at h
      exact Except.noConfusion h
    | ok r0 =>
      cases r0 with
      | none =>
        rw [applyPositionsList, hv] at h
        obtain ⟨it, hit, hc⟩ := ih res p h hp
        exact ⟨it, List.mem_cons_of_mem _ hit, hc⟩
      | some p0 =>
        rw [applyPositionsList, hv] at h
        cases hr : applyPositionsList rest with
        | error e => rw [hr] at h; exact Except.noConfusion h
        | ok ps =>
          rw [hr] at h
          injection h with h1
          rw [← h1] at hp
          rcases List.mem_cons.1 hp with h2 | h3
          · exact ⟨jt, List.mem_cons_self _ _, h2 ▸ hv⟩
          · obtain ⟨it, hit, hc⟩ := ih ps p hr h3
            exact ⟨it, List.mem_cons_of_mem _ hit, hc⟩

theorem applyPos_mem_tgt (items : List PosItem) :
    ∀ (res : List Position) (it : PosItem) (p : Position),
      applyPositionsList items = Except.ok res → it ∈ items →
      convertPosItem it = Except.ok (some p) → p ∈ res := by
  induction items with
  | nil => intro res it p _ hit; exact absurd hit (List.not_mem_nil it)
  | cons jt rest ih =>
    intro res it p h hit hc
    cases hv : convertPosItem jt with
    | error e =>
      rw [applyPositionsList, hv] at h
      exact Except.noConfusion h
    | ok r0 =>
      cases r0 with
      | none =>
        rw [applyPositionsList, hv] at h
        rcases List.mem_cons.1 hit with h1 | h2
        · rw [h1, hv] at hc
          injection hc with h3
          exact Option.noConfusion h3
        · exact ih res it p h h2 hc
      | some p0 =>
        rw [applyPositionsList, hv] at h
        cases hr : applyPositionsList rest with
        | error e => rw [hr] at h; exact Except.noConfusion h
        | ok ps =>
          rw [hr] at h
          injection h with h1
          rw [← h1]
          rcases List.mem_cons.1 hit with h2 | h3
          · rw [h2, hv] at hc
            injection hc with h3
            injection h3 with h4
            rw [h4]
            exact List.mem_cons_self _ _
          · exact List.mem_cons_of_mem _ (ih ps it p hr h3 hc)

theorem applyPos_keys (items : List PosItem) :
    ∀ res : List Position, applyPositionsList items = Except.ok res →
      (res.map posKey).Sublist (items.map rawPosKey) := by
  induction items with
  | nil =>
    intro res h
    rw [applyPositionsList] at h
    injection h with h1
    rw [← h1]
    exact List.nil_sublist _
  | cons jt rest ih =>
    intro res h
    cases hv : convertPosItem jt with
    | error e =>
      rw [applyPositionsList, hv] at h
      exact Except.noConfusion h
    | ok r0 =>
      cases r0 with
      | none =>
        rw [applyPositionsList, hv] at h
        exact (ih res h).cons (rawPosKey jt)
      | some p0 =>
        rw [applyPositionsList, hv] at h
        cases hr : applyPositionsList rest with
        | error e => rw [hr] at h; exact Except.noConfusion h
        | ok ps =>
          rw [hr] at h
          injection h with h1
          rw [← h1, List.map_cons, convertPosItem_key hv]
          exact (ih ps hr).cons₂ (rawPosKey jt)

/-- C5: applying a positions event (with parseable items and, as the
upstream full snapshot guarantees, pairwise-distinct position keys)
replaces the position set of the account wholesale: an item whose parsed size
is 0 contributes no entry under its key, an item with nonzero size is
present exactly as converted, the result is a mapping keyed by
`(instrument_id, side)`, and the cached entry equals the new list. -/
theorem positions_replace_spec (alive : ℕ → Bool) (st : HubState) (account_id : String)
    (items : List PosItem) (res : List Position)
    (hok : applyPositionsList items = Except.ok res)
    (hkeys : (items.map rawPosKey).Nodup) :
    (∀ it ∈ items, floatGetD0 it.pos = Except.ok 0 → ∀ p ∈ res, posKey p ≠ rawPosKey it)
      ∧ (∀ it ∈ items, ∀ q : ℚ, floatGetD0 it.pos = Except.ok q → ¬q = 0 →
          ∃ p, convertPosItem it = Except.ok (some p) ∧ p ∈ res)
      ∧ (res.map posKey).Nodup
      ∧ dictLookup (WebSocketManager.onPositionsUpdate alive st account_id items).1.positions
          account_id = some res := by
  refine ⟨?_, ?_, ?_, ?_⟩
  · intro it hit h0 p hp hkey
    obtain ⟨jt, hjt, hconv⟩ := applyPos_mem_src items res p hok hp
    have hkj : rawPosKey jt = rawPosKey it := by
      rw [← convertPosItem_key hconv]
      exact hkey
    have hji : jt = it := List.inj_on_of_nodup_map hkeys hjt hit hkj
    rw [hji, convertPosItem_zero h0] at hconv
    injection hconv with h1
    exact Option.noConfusion h1
  · intro it hit q hq hq0
    obtain ⟨r, hr⟩ := applyPos_success_mem items res hok it hit
    obtain ⟨p, hp⟩ := convertPosItem_nonzero hq hq0 hr
    rw [hp] at hr
    exact ⟨p, hr, applyPos_mem_tgt items res it p hok hit hr⟩
  · exact List.Nodup.sublist (applyPos_keys items res hok) hkeys
  · have hpos : (WebSocketManager.onPositionsUpdate alive st account_id items).1.positions
        = dictSet st.positions account_id res := by
      unfold WebSocketManager.onPositionsUpdate
      rw [hok]
      rfl
    rw [hpos]
    exact dictLookup_dictSet _ _ _

/-- C5 witness: a two-item event (nonzero BTC long, zero-size ETH short)
produces exactly the BTC entry and replaces the cached set. -/
theorem positions_replace_spec_witness :
    applyPositionsList [pItemBTC, pItemMissing] = Except.ok [posBTC]
      ∧ ([pItemBTC, pItemMissing].map rawPosKey).Nodup
      ∧ (∀ it ∈ [pItemBTC, pItemMissing], floatGetD0 it.pos = Except.ok 0 →
          ∀ p ∈ [posBTC], posKey p ≠ rawPosKey it)
      ∧ (∀ it ∈ [pItemBTC, pItemMissing], ∀ q : ℚ, floatGetD0 it.pos = Except.ok q → ¬q = 0 →
          ∃ p, convertPosItem it = Except.ok (some p) ∧ p ∈ [posBTC])
      ∧ (([posBTC] : List Position).map posKey).Nodup
      ∧ dictLookup (WebSocketManager.onPositionsUpdate (fun _ => true) hub0 "a"
          [pItemBTC, pItemMissing]).1.positions "a" = some [posBTC] := by
  have h := positions_replace_spec (fun _ => true) hub0 "a" [pItemBTC, pItemMissing] [posBTC]
      (by rfl) (by decide)
  exact ⟨by rfl, by decide, h.1, h.2.1, h.2.2.1, h.2.2.2⟩

theorem dictLookup_mem {α : Type} {m : List (String × α)} {a : String} {b : α}
    (h : dictLookup m a = some b) : (a, b) ∈ m := by
  unfold dictLookup at h
  cases hf : m.find? (fun p => decide (p.1 = a)) with
  | none => rw [hf] at h; exact Option.noConfusion h
  | some pr =>
    rw [hf] at h
    have h1 : pr.2 = b := by simpa using h
    have h2 : pr.1 = a := by simpa using List.find?_some hf
    have h3 : pr ∈ m := List.mem_of_find?_eq_some hf
    rw [← h1, ← h2]
    simpa using h3

/-- C7: registering an observer appends it to the active set and sends
it — and it alone — one balance, one positions and one pending-orders
message for every account with cached data, before any live update (the
whole trace of the registration consists of these replay sends). -/
theorem connect_replay_spec (st : HubState) (w : ℕ) :
    (WebSocketManager.connect st w).1.clients = st.clients ++ [w]
      ∧ (∀ pr ∈ (WebSocketManager.connect st w).2, pr.1 = w)
      ∧ (∀ a b, dictLookup st.balances a = some b →
          (w, Msg.balance a b) ∈ (WebSocketManager.connect st w).2)
      ∧ (∀ a ps, dictLookup st.positions a = some ps →
          (w, Msg.positions a ps) ∈ (WebSocketManager.connect st w).2)
      ∧ (∀ a tbl, dictLookup st.pendingOrders a = some tbl →
          (w, Msg.pendingOrders a (tbl.map (fun q => q.2))) ∈ (WebSocketManager.connect st w).2)
      ∧ (WebSocketManager.connect st w).2 = (replayMessages st).map (fun m => (w, m)) := by
  refine ⟨rfl, ?_, ?_, ?_, ?_, rfl⟩
  · intro pr hpr
    obtain ⟨m, _, he⟩ := List.mem_map.1 hpr
    rw [← he]
  · intro a b h
    refine List.mem_map.2 ⟨Msg.balance a b, ?_, rfl⟩
    unfold replayMessages
    exact List.mem_append.2 (Or.inl (List.mem_append.2 (Or.inl
      (List.mem_map.2 ⟨(a, b), dictLookup_mem h, rfl⟩))))
  · intro a ps h
    refine List.mem_map.2 ⟨Msg.positions a ps, ?_, rfl⟩
    unfold replayMessages
    exact List.mem_append.2 (Or.inl (List.mem_append.2 (Or.inr
      (List.mem_map.2 ⟨(a, ps), dictLookup_mem h, rfl⟩))))
  · intro a tbl h
    refine List.mem_map.2 ⟨Msg.pendingOrders a (tbl.map (fun q => q.2)), ?_, rfl⟩
    unfold replayMessages
    exact List.mem_append.2 (Or.inr
      (List.mem_map.2 ⟨(a, tbl), dictLookup_mem h, rfl⟩))

/-- C7 witness: observer 7 joins a hub with cached data for account "a"
and receives the three replay messages, addressed to it alone. -/
theorem connect_replay_spec_witness :
    (WebSocketManager.connect hubW 7).1.clients = [0, 7]
      ∧ (∀ pr ∈ (WebSocketManager.connect hubW 7).2, pr.1 = 7)
      ∧ dictLookup hubW.balances "a" = some biW
      ∧ (7, Msg.balance "a" biW) ∈ (WebSocketManager.connect hubW 7).2
      ∧ dictLookup hubW.positions "a" = some [posBTC]
      ∧ (7, Msg.positions "a" [posBTC]) ∈ (WebSocketManager.connect hubW 7).2
      ∧ dictLookup hubW.pendingOrders "a" = some [("x", orderLiveX)]
      ∧ (7, Msg.pendingOrders "a" [orderLiveX]) ∈ (WebSocketManager.connect hubW 7).2 := by
  have h := connect_replay_spec hubW 7
  refine ⟨?_, h.2.1, by decide, h.2.2.1 "a" biW (by decide), by decide,
    h.2.2.2.1 "a" [posBTC] (by decide), by decide, ?_⟩
  · rw [h.1]
    rfl
  · exact h.2.2.2.2.1 "a" [("x", orderLiveX)] (by decide)

theorem insertCurrencies_sid (sid : ℕ) (rows : List CurrencySnapshot) :
    ∀ nid : ℕ, ∀ c ∈ insertCurrencies sid nid rows, c.snapshot_id = sid := by
  induction rows with
  | nil => intro nid c hc; exact absurd hc (List.not_mem_nil c)
  | cons r rest ih =>
    intro nid c hc
    rcases List.mem_cons.1 hc with h1 | h2
    · rw [h1]
    · exact ih (nid + 1) c h2

theorem insertCurrencies_length (sid : ℕ) (rows : List CurrencySnapshot) :
    ∀ nid : ℕ, (insertCurrencies sid nid rows).length = rows.length := by
  induction rows with
  | nil => intro nid; rfl
  | cons r rest ih =>
    intro nid
    simp [insertCurrencies, ih (nid + 1)]

theorem save_nextBalId (st : DBState) (s : BalanceSnapshot) (now : ℤ) :
    (save_snapshot st s now).1.nextBalId = st.nextBalId + 1 := rfl

theorem save_balRows (st : DBState) (s : BalanceSnapshot) (now : ℤ) :
    (save_snapshot st s now).1.balRows
      = st.balRows.filter (fun r => !sameIdentity s r)
        ++ [{ id := st.nextBalId, account_id := s.account_id, timestamp := s.timestamp,
              total_equity := s.total_equity, available := s.available, frozen := s.frozen,
              margin_used := s.margin_used, unrealized_pnl := s.unrealized_pnl,
              created_at := now }] := rfl

theorem save_curRows (st : DBState) (s : BalanceSnapshot) (now : ℤ) (h : 1 ≤ st.nextBalId) :
    (save_snapshot st s now).1.curRows
      = st.curRows.filter (fun c => !decide (c.snapshot_id ∈
          (st.balRows.filter (sameIdentity s)).map (fun r => r.id)))
        ++ insertCurrencies st.nextBalId st.nextCurId s.currencies := by
  simp only [save_snapshot]
  rw [if_neg (by omega)]

theorem filter_not_self (p : BalRow → Bool) (l : List BalRow) :
    (l.filter (fun r => !p r)).filter p = [] := by
  induction l with
  | nil => rfl
  | cons r l ih =>
    by_cases h : p r = true
    · simp [List.filter_cons, h, ih]
    · simp [List.filter_cons, h, ih]

theorem save_identity_rows (st : DBState) (s : BalanceSnapshot) (now : ℤ) :
    (save_snapshot st s now).1.balRows.filter (sameIdentity s)
      = [{ id := st.nextBalId, account_id := s.account_id, timestamp := s.timestamp,
           total_equity := s.total_equity, available := s.available, frozen := s.frozen,
           margin_used := s.margin_used, unrealized_pnl := s.unrealized_pnl,
           created_at := now }] := by
  rw [save_balRows, List.filter_append, filter_not_self, List.nil_append]
  simp [List.filter_cons, sameIdentity]

theorem save_wf (st : DBState) (s : BalanceSnapshot) (now : ℤ) (hwf : DBWf st) :
    DBWf (save_snapshot st s now).1 := by
  obtain ⟨h1, h2, h3⟩ := hwf
  refine ⟨?_, ?_, ?_⟩
  · rw [save_nextBalId]
    omega
  · intro r hr
    rw [save_nextBalId]
    rw [save_balRows] at hr
    rcases List.mem_append.1 hr with hk | hnew
    · have := h2 r (List.mem_of_mem_filter hk)
      omega
    · have hre := List.mem_singleton.1 hnew
      rw [hre]
      show st.nextBalId < st.nextBalId + 1
      omega
  · intro c hc
    rw [save_nextBalId]
    rw [save_curRows st s now h1] at hc
    rcases List.mem_append.1 hc with hold | hins
    · have := h3 c (List.mem_of_mem_filter hold)
      omega
    · have := insertCurrencies_sid st.nextBalId s.currencies st.nextCurId c hins
      omega

theorem save_cur_count (st : DBState) (s : BalanceSnapshot) (now : ℤ) (hwf : DBWf st) :
    ((save_snapshot st s now).1.curRows.filter
        (fun c => decide (c.snapshot_id = st.nextBalId))).length = s.currencies.length := by
  obtain ⟨h1, h2, h3⟩ := hwf
  rw [save_curRows st s now h1, List.filter_append]
  have hold : ((st.curRows.filter (fun c => !decide (c.snapshot_id ∈
      (st.balRows.filter (sameIdentity s)).map (fun r => r.id)))).filter
      (fun c => decide (c.snapshot_id = st.nextBalId))) = [] := by
    rw [List.eq_nil_iff_forall_not_mem]
    intro c hc
    have hmem := List.mem_of_mem_filter hc
    have hmem2 := List.mem_of_mem_filter hmem
    have hid := List.of_mem_filter hc
    simp only [decide_eq_true_eq] at hid
    have := h3 c hmem2
    omega
  have hins : ((insertCurrencies st.nextBalId st.nextCurId s.currencies).filter
      (fun c => decide (c.snapshot_id = st.nextBalId)))
      = insertCurrencies st.nextBalId st.nextCurId s.currencies := by
    rw [List.filter_eq_self]
    intro c hc
    simp [insertCurrencies_sid st.nextBalId s.currencies st.nextCurId c hc]
  rw [hold, hins, List.nil_append, insertCurrencies_length]

/-- C1: submitting the same snapshot twice for one `(account_id,
timestamp)` identity leaves exactly one `balance_snapshots` row for that
identity, holding the submitted values, with exactly as many
`currency_snapshots` rows linked to it as the latest submission has
currencies — the replace deletes the prior row, the enabled
`ON DELETE CASCADE` removes its currency children, and fresh children are
inserted for the new row. -/
theorem snapshot_upsert_idempotent (st : DBState) (s : BalanceSnapshot) (t1 t2 : ℤ)
    (hwf : DBWf st) :
    ((save_snapshot (save_snapshot st s t1).1 s t2).1.balRows.filter (sameIdentity s)).length = 1
      ∧ ∀ r ∈ (save_snapshot (save_snapshot st s t1).1 s t2).1.balRows.filter (sameIdentity s),
          r.total_equity = s.total_equity ∧ r.available = s.available ∧ r.frozen = s.frozen
            ∧ r.margin_used = s.margin_used ∧ r.unrealized_pnl = s.unrealized_pnl
            ∧ ((save_snapshot (save_snapshot st s t1).1 s t2).1.curRows.filter
                (fun c => decide (c.snapshot_id = r.id))).length = s.currencies.length := by
  have hwf1 : DBWf (save_snapshot st s t1).1 := save_wf st s t1 hwf
  have hid := save_identity_rows (save_snapshot st s t1).1 s t2
  constructor
  · rw [hid]
    rfl
  · intro r hr
    rw [hid] at hr
    have hre := List.mem_singleton.1 hr
    subst hre
    exact ⟨rfl, rfl, rfl, rfl, rfl, save_cur_count (save_snapshot st s t1).1 s t2 hwf1⟩

/-- C1 witness: the concrete snapshot applied twice to the fresh database
leaves one summary row with its values and two currency rows. -/
theorem snapshot_upsert_idempotent_witness :
    DBWf dbEmpty
      ∧ ((save_snapshot (save_snapshot dbEmpty snapW 5).1 snapW 9).1.balRows.filter
          (sameIdentity snapW)).length = 1
      ∧ (∀ r ∈ (save_snapshot (save_snapshot dbEmpty snapW 5).1 snapW 9).1.balRows.filter
            (sameIdentity snapW),
          r.total_equity = snapW.total_equity ∧ r.available = snapW.available
            ∧ r.frozen = snapW.frozen ∧ r.margin_used = snapW.margin_used
            ∧ r.unrealized_pnl = snapW.unrealized_pnl
            ∧ ((save_snapshot (save_snapshot dbEmpty snapW 5).1 snapW 9).1.curRows.filter
                (fun c => decide (c.snapshot_id = r.id))).length = snapW.currencies.length) := by
  have h := snapshot_upsert_idempotent dbEmpty snapW 5 9 (by decide)
  exact ⟨by decide, h.1, h.2⟩
